import Mathlib

/-!
A verification development for `shell.c`, a small unix shell.

The file embeds the line reader (`get_raw_input`), the tokenizer
(`split_args`, `get_arg`, `remove_first_and_last_chars`), the dispatcher
(`execute`), the job controller (`program_command`) and the main loop
(`shell_loop`) of `src/shell.c` as Lean functions, and proves properties of
them.

Conventions of the embedding.

* A C string is the list of its characters before the terminating NUL.
* `strtok` keeps a hidden save pointer; here the save pointer is an explicit
  argument and result (the characters from the pointer to the terminator).
* Loops driven by `strtok` take a fuel argument; running out of fuel is the
  fault `out_of_fuel`, and the theorems show that the fuel handed out by
  `split_args` is always enough.
* A store outside an allocated block, a read of a cell that was never
  written, and a library copy between overlapping objects that is longer than
  one block, are the faults `out_of_bounds`, `uninitialised_read` and
  `overlapping_copy`.
* `malloc`/`realloc` are taken to succeed (`check_alloc` does not fire), and
  the C `int` counters are unbounded naturals.
-/

namespace Shell

/-! ## Faults -/

/-- The ways in which a run of the embedded code can fail to produce a value. -/
inductive Fault
  | out_of_fuel
  | out_of_bounds
  | uninitialised_read
  | overlapping_copy
  deriving DecidableEq, Repr

deriving instance DecidableEq for Except

/-! ## Constants of `shell.c` -/

/-- The constant `BUFFER_SIZE`, defined as 1024. -/
def BUFFER_SIZE : Nat := 1024

/-- The constant `MAX_ARG_COUNT`, defined as 64. -/
def MAX_ARG_COUNT : Nat := 64

/-- The constant `INPUT_DELIMETERS`: space, tab, carriage return, newline and
bell. -/
def INPUT_DELIMETERS : List Char := [' ', '\t', '\r', '\n', '\x07']

/-- Membership of a character in `INPUT_DELIMETERS`. -/
def isDelim (c : Char) : Bool := INPUT_DELIMETERS.contains c

/-! ## `strtok` -/

/-- One call of `strtok(_, INPUT_DELIMETERS)` on the save pointer `save`:
skip the leading delimiters (`strspn`); at the terminator return `NULL`;
otherwise the token runs to the next delimiter (`strcspn`), that delimiter is
overwritten by NUL and the save pointer moves one past it (or stays on the
terminator when the token ends the string). -/
def strtok (save : List Char) : Option (List Char) × List Char :=
  let s := save.dropWhile isDelim
  if s.isEmpty then (none, [])
  else
    let token := s.takeWhile (fun c => !isDelim c)
    let endp := s.dropWhile (fun c => !isDelim c)
    (some token, endp.drop 1)

/-! ## The tokenizer -/

/-- The longest run that the library `strncpy` is taken to copy intact between
overlapping objects.  The call `strncpy(chars, &chars[1], n)` reads
`chars[1..n]` and writes `chars[0..n-1]`; from `n = 2` on the two objects
overlap, and C leaves such a copy undefined.  The library is not under
`src/`.  Its implementations read a block of the source before they store
it, so that a run that fits one 16-byte block arrives as a forward copy
would leave it, while a longer run can lose and repeat bytes, depending on
the implementation and on the alignment of the block.  The embedding follows
the library up to one block and treats every longer overlapping copy as a
fault. -/
def STRNCPY_BLOCK : Nat := 16

/-- The function `remove_first_and_last_chars`: `lastCharIndex = strlen(chars) - 2`,
then `strncpy(chars, &chars[1], lastCharIndex)` and `chars[lastCharIndex] = 0`.
For a string of fewer than two characters `lastCharIndex` is negative: the
copy length converts to a huge `size_t` and the final store goes to
`chars[-1]`, outside the block.  Otherwise the copy is between overlapping
objects: up to `STRNCPY_BLOCK` characters it leaves `chars[1..lastCharIndex]`
at the front of the string, beyond that it is the fault `overlapping_copy`. -/
def remove_first_and_last_chars (chars : List Char) : Except Fault (List Char) :=
  let lastCharIndex : Int := (chars.length : Int) - 2
  if lastCharIndex < 0 then .error .out_of_bounds
  else if lastCharIndex.toNat ≤ STRNCPY_BLOCK then
    .ok ((chars.drop 1).take lastCharIndex.toNat)
  else .error .overlapping_copy

/-- The `while (token = strtok(NULL, ...))` loop of `get_arg`: every further
token is appended to `stringArg` after one space, and the loop breaks after
the first token whose last character is `delimeter`. -/
def get_arg_loop : Nat → List Char → Char → List Char →
    Except Fault (List Char × List Char)
  | 0, _, _, _ => .error .out_of_fuel
  | fuel + 1, stringArg, delimeter, save =>
    match strtok save with
    | (none, save1) => .ok (stringArg, save1)
    | (some token, save1) =>
      let stringArg1 := stringArg ++ ' ' :: token
      if token.getLast? = some delimeter then .ok (stringArg1, save1)
      else get_arg_loop fuel stringArg1 delimeter save1

/-- The function `get_arg`: a token that does not begin with `"` or `'` is returned as it
is; otherwise the following tokens are gathered by `get_arg_loop` and the
first and last characters of the gathered string are removed.  The result is
the argument together with the save pointer of `strtok` after the call. -/
def get_arg (fuel : Nat) (token : List Char) (save : List Char) :
    Except Fault (List Char × List Char) :=
  if token.head? ≠ some '"' ∧ token.head? ≠ some '\'' then .ok (token, save)
  else
    let delimeter := token.headD '\x00'
    match get_arg_loop fuel token delimeter save with
    | .error e => .error e
    | .ok (stringArg, save1) =>
      match remove_first_and_last_chars stringArg with
      | .error e => .error e
      | .ok arg => .ok (arg, save1)

/-- The `for` loop of `split_args`.  `args` holds the entries `args[0..i)`
written so far (`i = args.length`), `maxArgCount` is the number of entries
allocated, `bg` is the value stored at `*bg`.  The initialiser and the
increment of the `for` are both a call of `strtok` (on `raw` first, on `NULL`
afterwards), which here is the one call on the save pointer at the head of a
round.  `&` stores 1 to `*bg` and continues; any other token is handed to
`get_arg`, which may move the save pointer further, the result is stored at
`args[i++]`, and the block grows by `MAX_ARG_COUNT` when `i >= maxArgCount`.
When `strtok` returns `NULL` the terminator is stored at `args[i]`. -/
def split_args_loop : Nat → List Char → List (List Char) → Nat → Int →
    Except Fault (List (List Char) × Int)
  | 0, _, _, _, _ => .error .out_of_fuel
  | fuel + 1, save, args, maxArgCount, bg =>
    match strtok save with
    | (none, _) =>
      if args.length < maxArgCount then .ok (args, bg) else .error .out_of_bounds
    | (some token, save1) =>
      if token = ['&'] then split_args_loop fuel save1 args maxArgCount 1
      else
        match get_arg fuel token save1 with
        | .error e => .error e
        | .ok (arg, save2) =>
          if args.length < maxArgCount then
            let args1 := args ++ [arg]
            let maxArgCount1 :=
              if args1.length ≥ maxArgCount then maxArgCount + MAX_ARG_COUNT
              else maxArgCount
            split_args_loop fuel save2 args1 maxArgCount1 bg
          else .error .out_of_bounds

/-- The function `split_args(raw, bg)`: the arguments before the terminator,
and the value of `*bg` after the call (`bg` is its value before the call). -/
def split_args (raw : List Char) (bg : Int) : Except Fault (List (List Char) × Int) :=
  split_args_loop (raw.length + 1) raw [] MAX_ARG_COUNT bg

/-! ## The line reader -/

/-- The block returned by `get_raw_input`: `cells` are the cells
`buffer[0..i)` that were written, `bufsize` is the number of cells allocated.
The cells from `i` on were never written. -/
structure Buffer where
  cells : List Char
  bufsize : Nat
  deriving DecidableEq, Repr

/-- The `for (i = 0; c = getchar();)` loop of `get_raw_input` on the bytes
still to be read.  The loop condition is the value of `c`, so a NUL byte is
read and ends the loop before the body runs; `getchar` at end of input
returns `EOF`, which is not zero.  In the body `done` is `c == '\n' || c ==
EOF`, the cell `buffer[i++]` receives `c`, or NUL when `done`, and the block
grows by `BUFFER_SIZE` when `i >= bufsize`.  The result is the block and the
bytes left unread. -/
def get_raw_input_loop : List Char → List Char → Nat → Except Fault (Buffer × List Char)
  | [], cells, bufsize =>
    if cells.length < bufsize then .ok (⟨cells ++ ['\x00'], bufsize⟩, [])
    else .error .out_of_bounds
  | c :: rest, cells, bufsize =>
    if c = '\x00' then .ok (⟨cells, bufsize⟩, rest)
    else if cells.length < bufsize then
      if c = '\n' then .ok (⟨cells ++ ['\x00'], bufsize⟩, rest)
      else
        let cells1 := cells ++ [c]
        let bufsize1 := if cells1.length ≥ bufsize then bufsize + BUFFER_SIZE else bufsize
        get_raw_input_loop rest cells1 bufsize1
    else .error .out_of_bounds

/-- The function `get_raw_input()` on the bytes `stdin` waiting on standard input. -/
def get_raw_input (stdin : List Char) : Except Fault (Buffer × List Char) :=
  get_raw_input_loop stdin [] BUFFER_SIZE

/-- Reading a block as a C string: the characters before the first NUL.  When
no written cell holds NUL the read runs into cells that were never written. -/
def c_string (b : Buffer) : Except Fault (List Char) :=
  if b.cells.contains '\x00' then .ok (b.cells.takeWhile (fun c => c != '\x00'))
  else .error .uninitialised_read

/-! ## Processes and events -/

/-- The process that performs an event. -/
inductive Proc
  | shell
  | target
  | guardian
  deriving DecidableEq, Repr

/-- The observable steps of `execute` and `program_command`. -/
inductive Event
  | exit (status : Int)
  | print_pid
  | print_ppid
  | change_directory (args : List (List Char))
  | print_current_directory
  | print_jobs
  | fork (result : Int)
  | perror
  | execvp (file : List Char) (argv : List (List Char))
  | cannot_exec (file : List Char)
  | kill (pid : Int)
  | kill_self
  | announce (pid : Int) (command : List Char)
  | waitpid (pid : Int)
  | report (pid : Int) (command : List Char) (exitStatus : Nat)
  deriving DecidableEq, Repr

/-- One control path through a function: the events in program order, each
with the process performing it, and the value returned (`none` when the path
ends with the process terminated or its image replaced). -/
structure Run where
  trace : List (Proc × Event)
  returned : Option Int
  deriving DecidableEq, Repr

/-- What the operating system answers along one control path: the results of
the two `fork` calls, whether `execvp` succeeds, and the 32-bit pattern left
in `status` when `waitpid` returns. -/
structure OS where
  rc : Int
  guardian : Int
  exec_ok : Bool
  status : Nat
  deriving DecidableEq, Repr

/-- The constant `EXIT_SUCCESS` of `<stdlib.h>`. -/
def EXIT_SUCCESS : Int := 0

/-- The constant `EXIT_FAILURE` of `<stdlib.h>`. -/
def EXIT_FAILURE : Int := 1

/-! ## Wait status macros -/

/-- Modelled from the spec: the macro `WTERMSIG` comes from the system headers
and is not under `src/`; the terminating signal number is the low 7 bits of
the status. -/
def WTERMSIG (status : Nat) : Nat := status &&& 0x7f

/-- Modelled from the spec: the macro `WIFEXITED` comes from the system
headers and is not under `src/`; a process exited normally when the low 7
bits of the status are zero. -/
def WIFEXITED (status : Nat) : Bool := WTERMSIG status == 0

/-- Modelled from the spec: the macro `WEXITSTATUS` comes from the system
headers and is not under `src/`; the exit code is bits 8-15 of the status. -/
def WEXITSTATUS (status : Nat) : Nat := (status &&& 0xff00) >>> 8

/-- The value of `exitStatus` in `program_command`:
`WIFEXITED(status) ? WEXITSTATUS(status) : WTERMSIG(status)`. -/
def exitStatus (status : Nat) : Nat :=
  if WIFEXITED status then WEXITSTATUS status else WTERMSIG status

/-! ## The job controller and the dispatcher -/

/-- The function `program_command(args, bg)` along the control path fixed by `os`.

* `rc < 0`: `perror`, `exit(EXIT_FAILURE)`.
* `rc == 0` (the target): `execvp`; when that fails the diagnostic is printed
  and the process sends itself `SIGTERM`, which ends it.
* otherwise the spawn announcement is printed, `guardian` is `fork()` when
  `bg` is nonzero and 0 otherwise, and the path returns 1 at once when
  `guardian != 0 && bg`.  The remaining paths call `waitpid`, print the
  termination report, and the guardian (`guardian == 0 && bg`) then signals
  the target and itself. -/
def program_command (args : List (List Char)) (bg : Int) (os : OS) : Run :=
  let command := args.headD []
  let t0 : List (Proc × Event) := [(.shell, .fork os.rc)]
  if os.rc < 0 then
    ⟨t0 ++ [(.shell, .perror), (.shell, .exit EXIT_FAILURE)], none⟩
  else if os.rc = 0 then
    if os.exec_ok then ⟨t0 ++ [(.target, .execvp command args)], none⟩
    else
      ⟨t0 ++ [(.target, .execvp command args), (.target, .cannot_exec command),
        (.target, .kill_self)], none⟩
  else
    let t1 := t0 ++ [(.shell, .announce os.rc command)]
    let guardian : Int := if bg ≠ 0 then os.guardian else 0
    let t2 := if bg ≠ 0 then t1 ++ [(.shell, .fork guardian)] else t1
    if guardian ≠ 0 ∧ bg ≠ 0 then ⟨t2, some 1⟩
    else
      let me : Proc := if bg ≠ 0 then .guardian else .shell
      let t3 := t2 ++ [(me, .waitpid os.rc), (me, .report os.rc command (exitStatus os.status))]
      if guardian = 0 ∧ bg ≠ 0 then ⟨t3 ++ [(me, .kill os.rc), (me, .kill_self)], none⟩
      else ⟨t3, some 1⟩

/-- The function `execute(runInBackground, args)`: the chain of `strcmp` tests on
`args[0]`.  `status` starts as 1 and only the last branch assigns it. -/
def execute (runInBackground : Int) (args : List (List Char)) (os : OS) : Run :=
  match args with
  | [] => ⟨[], some 1⟩
  | arg0 :: _ =>
    if arg0 = ['e', 'x', 'i', 't'] then ⟨[(.shell, .exit EXIT_SUCCESS)], none⟩
    else if arg0 = ['p', 'i', 'd'] then ⟨[(.shell, .print_pid)], some 1⟩
    else if arg0 = ['p', 'p', 'i', 'd'] then ⟨[(.shell, .print_ppid)], some 1⟩
    else if arg0 = ['c', 'd'] then ⟨[(.shell, .change_directory args)], some 1⟩
    else if arg0 = ['p', 'w', 'd'] then ⟨[(.shell, .print_current_directory)], some 1⟩
    else if arg0 = ['j', 'o', 'b', 's'] then ⟨[(.shell, .print_jobs)], some 1⟩
    else program_command args runInBackground os

/-! ## The main loop -/

/-- The first `n` rounds of the `do ... while (status)` loop of `shell_loop`,
as the list of calls `execute(*bg, args)` it makes: each call is recorded as
the flag and the argument list passed.  `bg` is the value stored in the
block `malloc`ed for the flag (the block is never initialised, so the first
round starts from an arbitrary value), `os k` is the operating system's
answer in round `k`.  The loop goes on while `execute` returns a nonzero
status. -/
def shell_loop : Nat → Nat → List Char → Int → (Nat → OS) →
    Except Fault (List (Int × List (List Char)))
  | 0, _, _, _, _ => .ok []
  | n + 1, k, stdin, bg, os =>
    match get_raw_input stdin with
    | .error e => .error e
    | .ok (buffer, stdin1) =>
      match c_string buffer with
      | .error e => .error e
      | .ok raw =>
        match split_args raw bg with
        | .error e => .error e
        | .ok (args, bg1) =>
          match (execute bg1 args (os k)).returned with
          | none => .ok [(bg1, args)]
          | some status =>
            if status ≠ 0 then
              match shell_loop n (k + 1) stdin1 bg1 os with
              | .error e => .error e
              | .ok calls => .ok ((bg1, args) :: calls)
            else .ok [(bg1, args)]

/-! ## Specification-side vocabulary for the tokenizer -/

/-- The whitespace-delimited tokens of a line: the maximal runs of characters
other than the delimiters, in order. -/
def tokens (raw : List Char) : List (List Char) :=
  (raw.splitOnP isDelim).filter (fun t => !t.isEmpty)

/-- Where the tokenizer stands between two tokens: at the top of the loop of
`split_args`, or inside the loop of `get_arg` with delimiter `d` and the
string `acc` gathered so far. -/
inductive Mode
  | top
  | quote (d : Char) (acc : List Char)

/-- The tokenizer run over a list of tokens instead of a character buffer. -/
def scan : Mode → List (List Char) → List (List Char) → Int →
    Except Fault (List (List Char) × Int)
  | .top, [], args, bg => .ok (args, bg)
  | .top, t :: ts, args, bg =>
    if t = ['&'] then scan .top ts args 1
    else if t.head? ≠ some '"' ∧ t.head? ≠ some '\'' then scan .top ts (args ++ [t]) bg
    else scan (.quote (t.headD '\x00') t) ts args bg
  | .quote _ acc, [], args, bg =>
    match remove_first_and_last_chars acc with
    | .error e => .error e
    | .ok a => .ok (args ++ [a], bg)
  | .quote d acc, t :: ts, args, bg =>
    if t.getLast? = some d then
      match remove_first_and_last_chars (acc ++ ' ' :: t) with
      | .error e => .error e
      | .ok a => scan .top ts (args ++ [a]) bg
    else scan (.quote d (acc ++ ' ' :: t)) ts args bg

/-- A line of seventy tokens `x`, more than the `MAX_ARG_COUNT` entries first
allocated. -/
def seventy : List Char := (List.replicate 70 ['x', ' ']).flatten

/-- The answers of the operating system on the control path of the shell: both
`fork` calls return a child's process id. -/
def shellPath : OS := ⟨100, 101, true, 0⟩

/-- The names of the builtins. -/
def builtinNames : List (List Char) :=
  ["exit".toList, "pid".toList, "ppid".toList, "cd".toList, "pwd".toList, "jobs".toList]

/-! ## `strtok` against `tokens` -/

theorem splitOnP_run (cs : List Char) :
    cs.splitOnP isDelim = cs.takeWhile (fun c => !isDelim c) ::
      (if (cs.dropWhile (fun c => !isDelim c)).isEmpty then []
       else ((cs.dropWhile (fun c => !isDelim c)).drop 1).splitOnP isDelim) := by
  induction cs with
  | nil => rfl
  | cons c cs ih =>
    by_cases hc : isDelim c = true
    · simp [List.splitOnP_cons, hc, List.takeWhile, List.dropWhile]
    · simp only [Bool.not_eq_true] at hc
      rw [List.splitOnP_cons, ih]
      simp [hc, List.takeWhile, List.dropWhile, List.modifyHead]

theorem tokens_nil : tokens [] = [] := rfl

theorem strtok_delim_cons (c : Char) (cs : List Char) (hc : isDelim c = true) :
    strtok (c :: cs) = strtok cs := by
  simp [strtok, List.dropWhile, hc]

theorem tokens_delim_cons (c : Char) (cs : List Char) (hc : isDelim c = true) :
    tokens (c :: cs) = tokens cs := by
  simp [tokens, List.splitOnP_cons, hc, List.filter]

theorem strtok_none (s : List Char) (save1 : List Char) (h : strtok s = (none, save1)) :
    tokens s = [] ∧ save1 = [] := by
  induction s with
  | nil => simp [strtok] at h; exact ⟨rfl, h⟩
  | cons c cs ih =>
    by_cases hc : isDelim c = true
    · rw [strtok_delim_cons c cs hc] at h
      rw [tokens_delim_cons c cs hc]
      exact ih h
    · simp [strtok, List.dropWhile, hc] at h

theorem strtok_some (s : List Char) (t save1 : List Char) (h : strtok s = (some t, save1)) :
    tokens s = t :: tokens save1 ∧ save1.length < s.length := by
  induction s with
  | nil => simp [strtok] at h
  | cons c cs ih =>
    by_cases hc : isDelim c = true
    · rw [strtok_delim_cons c cs hc] at h
      rw [tokens_delim_cons c cs hc]
      have := ih h
      exact ⟨this.1, by simp; omega⟩
    · simp only [Bool.not_eq_true] at hc
      simp [strtok, List.dropWhile, List.takeWhile, hc] at h
      obtain ⟨ht, hs⟩ := h
      subst ht; subst hs
      constructor
      · rw [tokens, List.splitOnP_cons, splitOnP_run cs]
        by_cases he : (List.dropWhile (fun c => !isDelim c) cs).isEmpty = true
        · have he2 : List.dropWhile (fun c => !isDelim c) cs = [] := by
            simpa using he
          rw [if_pos he]
          simp [hc, List.modifyHead, List.filter, he2, tokens]
        · rw [if_neg he]
          simp [hc, List.modifyHead, List.filter, tokens]
      · have h1 := (List.dropWhile_sublist (fun c => !isDelim c) (l := cs)).length_le
        simp only [List.length_tail, List.length_cons]
        omega

/-! ## The character-level loops against the token-level view -/

theorem get_arg_loop_scan (fuel : Nat) : ∀ (acc : List Char) (d : Char) (s : List Char),
    s.length < fuel →
    ∃ acc1 s1, get_arg_loop fuel acc d s = .ok (acc1, s1) ∧ s1.length ≤ s.length ∧
      ∀ args bg, scan (.quote d acc) (tokens s) args bg =
        match remove_first_and_last_chars acc1 with
        | .error e => .error e
        | .ok a => scan .top (tokens s1) (args ++ [a]) bg := by
  induction fuel with
  | zero => intro acc d s h; omega
  | succ fuel ih =>
    intro acc d s hlen
    rcases hst : strtok s with ⟨_ | t, s1⟩
    · obtain ⟨htok, hs1⟩ := strtok_none s s1 hst
      subst hs1
      refine ⟨acc, [], ?_, by simp, ?_⟩
      · simp [get_arg_loop, hst]
      · intro args bg
        rw [htok, tokens_nil]
        simp only [scan]
    · obtain ⟨htok, hs1⟩ := strtok_some s t s1 hst
      by_cases hlast : t.getLast? = some d
      · refine ⟨acc ++ ' ' :: t, s1, ?_, by omega, ?_⟩
        · simp [get_arg_loop, hst, hlast]
        · intro args bg
          rw [htok]
          simp only [scan, hlast, if_true]
      · obtain ⟨acc1, s2, h1, h2, h3⟩ := ih (acc ++ ' ' :: t) d s1 (by omega)
        refine ⟨acc1, s2, ?_, by omega, ?_⟩
        · simp [get_arg_loop, hst, hlast, h1]
        · intro args bg
          rw [htok]
          simp only [scan, hlast, if_false]
          exact h3 args bg

theorem get_arg_plain (fuel : Nat) (t s : List Char)
    (hq : t.head? ≠ some '"' ∧ t.head? ≠ some '\'') : get_arg fuel t s = .ok (t, s) := by
  unfold get_arg
  rw [if_pos hq]

theorem get_arg_quote (fuel : Nat) (t s : List Char)
    (hq : ¬ (t.head? ≠ some '"' ∧ t.head? ≠ some '\'')) :
    get_arg fuel t s =
      match get_arg_loop fuel t (t.headD '\x00') s with
      | .error e => .error e
      | .ok (stringArg, save1) =>
        match remove_first_and_last_chars stringArg with
        | .error e => .error e
        | .ok arg => .ok (arg, save1) := by
  unfold get_arg
  rw [if_neg hq]

theorem split_args_loop_scan (fuel : Nat) : ∀ (s : List Char) (args : List (List Char))
    (cap : Nat) (bg : Int), s.length < fuel → args.length < cap →
    split_args_loop fuel s args cap bg = scan .top (tokens s) args bg := by
  induction fuel with
  | zero => intro s args cap bg h; omega
  | succ fuel ih =>
    intro s args cap bg hlen hcap
    rcases hst : strtok s with ⟨_ | t, s1⟩
    · obtain ⟨htok, _⟩ := strtok_none s s1 hst
      simp [split_args_loop, hst, htok, scan, hcap]
    · obtain ⟨htok, hs1⟩ := strtok_some s t s1 hst
      rw [htok]
      by_cases hamp : t = ['&']
      · simp only [split_args_loop, hst, hamp, if_true, scan]
        exact ih s1 args cap 1 (by omega) hcap
      · have hcap1 : ∀ a : List Char, (args ++ [a]).length <
            (if (args ++ [a]).length ≥ cap then cap + MAX_ARG_COUNT else cap) := by
          intro a
          simp only [List.length_append, List.length_singleton, MAX_ARG_COUNT]
          split <;> omega
        by_cases hq : t.head? ≠ some '"' ∧ t.head? ≠ some '\''
        · simp only [split_args_loop, hst, hamp, if_false, scan]
          rw [get_arg_plain fuel t s1 hq, if_pos hq]
          simp only [hcap, if_true]
          exact ih s1 (args ++ [t]) _ bg (by omega) (hcap1 t)
        · obtain ⟨acc1, s2, h1, h2, h3⟩ := get_arg_loop_scan fuel t (t.headD '\x00') s1 (by omega)
          simp only [split_args_loop, hst, hamp, if_false, scan]
          rw [get_arg_quote fuel t s1 hq, if_neg hq, h1, h3]
          dsimp only
          cases hr : remove_first_and_last_chars acc1 with
          | error e => rfl
          | ok a =>
            simp only [hcap, if_true]
            exact ih s2 (args ++ [a]) _ bg (by omega) (hcap1 a)

theorem split_args_eq_scan (raw : List Char) (bg : Int) :
    split_args raw bg = scan .top (tokens raw) [] bg :=
  split_args_loop_scan (raw.length + 1) raw [] MAX_ARG_COUNT bg (by omega)
    (by simp [MAX_ARG_COUNT])

theorem scan_top_amp (ts args : List (List Char)) (bg : Int) :
    scan .top (['&'] :: ts) args bg = scan .top ts args 1 := by
  simp only [scan, if_true]

theorem scan_top_plain (t : List Char) (ts args : List (List Char)) (bg : Int)
    (hamp : t ≠ ['&']) (hq : t.head? ≠ some '"' ∧ t.head? ≠ some '\'') :
    scan .top (t :: ts) args bg = scan .top ts (args ++ [t]) bg := by
  simp only [scan]
  rw [if_neg hamp, if_pos hq]

/-- A line without quote-opening tokens: the tokens other than `&` in order,
and the flag is 1 when `&` occurs and untouched otherwise. -/
theorem scan_plain : ∀ (ts args : List (List Char)) (bg : Int),
    (∀ t ∈ ts, t.head? ≠ some '"' ∧ t.head? ≠ some '\'') →
    scan .top ts args bg =
      .ok (args ++ ts.filter (fun t => t ≠ ['&']), if ['&'] ∈ ts then 1 else bg) := by
  intro ts
  induction ts with
  | nil => intro args bg _; simp [scan]
  | cons t ts ih =>
    intro args bg h
    have hts : ∀ t ∈ ts, t.head? ≠ some '"' ∧ t.head? ≠ some '\'' :=
      fun x hx => h x (List.mem_cons_of_mem _ hx)
    by_cases hamp : t = ['&']
    · subst hamp
      rw [scan_top_amp, ih args 1 hts]
      simp
    · rw [scan_top_plain t ts args bg hamp (h t (List.mem_cons_self _ _)), ih _ bg hts]
      have hamp2 : ¬ (['&'] = t) := fun e => hamp e.symm
      simp [List.filter, hamp, hamp2]

/-- Without an `&` token the flag is left as it was. -/
theorem scan_flag_unchanged : ∀ (ts : List (List Char)) (m : Mode) (args a : List (List Char))
    (bg b : Int), ['&'] ∉ ts → scan m ts args bg = .ok (a, b) → b = bg := by
  intro ts
  induction ts with
  | nil =>
    intro m args a bg b _ h
    cases m with
    | top => simp [scan] at h; exact h.2.symm
    | quote d acc =>
      simp only [scan] at h
      cases hr : remove_first_and_last_chars acc with
      | error e => rw [hr] at h; simp at h
      | ok x => rw [hr] at h; simp at h; exact h.2.symm
  | cons t ts ih =>
    intro m args a bg b hno h
    have hno1 : ['&'] ∉ ts := fun hx => hno (List.mem_cons_of_mem _ hx)
    have hne : t ≠ ['&'] := fun e => hno (by rw [e]; exact List.mem_cons_self _ _)
    cases m with
    | top =>
      simp only [scan] at h
      rw [if_neg hne] at h
      split at h <;> exact ih _ _ _ _ _ hno1 h
    | quote d acc =>
      simp only [scan] at h
      split at h
      · cases hr : remove_first_and_last_chars (acc ++ ' ' :: t) with
        | error e => rw [hr] at h; simp at h
        | ok x => rw [hr] at h; exact ih _ _ _ _ _ hno1 h
      · exact ih _ _ _ _ _ hno1 h

/-- No piece of a split holds a delimiter. -/
theorem splitOnP_no_delim : ∀ (xs : List Char), ∀ l ∈ xs.splitOnP isDelim,
    ∀ c ∈ l, isDelim c = false := by
  intro xs
  induction xs with
  | nil => intro l hl c hc; simp at hl; subst hl; simp at hc
  | cons x xs ih =>
    intro l hl c hc
    rw [List.splitOnP_cons] at hl
    by_cases hx : isDelim x = true
    · rw [if_pos hx] at hl
      rcases List.mem_cons.1 hl with h | h
      · subst h; simp at hc
      · exact ih l h c hc
    · rw [if_neg hx] at hl
      cases hs : List.splitOnP isDelim xs with
      | nil => exact absurd hs (List.splitOnP_ne_nil _ _)
      | cons h tl =>
        rw [hs] at hl ih
        simp only [List.modifyHead] at hl
        rcases List.mem_cons.1 hl with e | e
        · subst e
          rcases List.mem_cons.1 hc with e2 | e2
          · subst e2; simpa using hx
          · exact ih h (List.mem_cons_self _ _) c e2
        · exact ih l (List.mem_cons_of_mem _ e) c hc

/-- Every token is a nonempty run of characters that are not delimiters. -/
theorem tokens_nonempty_no_delim (raw : List Char) :
    ∀ t ∈ tokens raw, t ≠ [] ∧ ∀ c ∈ t, isDelim c = false := by
  intro t ht
  simp only [tokens, List.mem_filter] at ht
  refine ⟨?_, splitOnP_no_delim raw t ht.1⟩
  intro e
  subst e
  simp at ht

/-- The token-level view faults only inside `remove_first_and_last_chars`. -/
theorem scan_error : ∀ (ts : List (List Char)) (m : Mode) (args : List (List Char))
    (bg : Int) (e : Fault), scan m ts args bg = .error e →
    e = .out_of_bounds ∨ e = .overlapping_copy := by
  have hr : ∀ (s : List Char) (e : Fault),
      remove_first_and_last_chars s = .error e →
      e = .out_of_bounds ∨ e = .overlapping_copy := by
    intro s e h
    simp only [remove_first_and_last_chars] at h
    split at h
    · cases h; exact Or.inl rfl
    · split at h
      · cases h
      · cases h; exact Or.inr rfl
  intro ts
  induction ts with
  | nil =>
    intro m args bg e h
    cases m with
    | top => simp [scan] at h
    | quote d acc =>
      simp only [scan] at h
      cases hx : remove_first_and_last_chars acc with
      | error e2 => rw [hx] at h; cases h; exact hr _ _ hx
      | ok x => rw [hx] at h; cases h
  | cons t ts ih =>
    intro m args bg e h
    cases m with
    | top =>
      simp only [scan] at h
      split at h
      · exact ih _ _ _ _ h
      · split at h <;> exact ih _ _ _ _ h
    | quote d acc =>
      simp only [scan] at h
      split at h
      · cases hx : remove_first_and_last_chars (acc ++ ' ' :: t) with
        | error e2 => rw [hx] at h; cases h; exact hr _ _ hx
        | ok x => rw [hx] at h; exact ih _ _ _ _ h
      · exact ih _ _ _ _ h

/-- The fuel that `split_args` hands to its loops is always enough. -/
theorem split_args_fuel_enough (raw : List Char) (bg : Int) :
    split_args raw bg ≠ .error .out_of_fuel := by
  intro h
  rw [split_args_eq_scan] at h
  rcases scan_error _ _ _ _ _ h with e | e <;> cases e

/-- C1: on a line in which no token begins with `'` or `"`, `split_args`
returns the tokens of the line in their order with exactly the tokens `&`
removed, for any number of tokens (the argument block grows as needed and
the terminator is always stored inside it); the flag becomes 1 when `&`
occurs and is left alone otherwise. -/
theorem C1_unquoted_line (raw : List Char) (bg : Int)
    (h : ∀ t ∈ tokens raw, t.head? ≠ some '"' ∧ t.head? ≠ some '\'') :
    split_args raw bg =
      .ok ((tokens raw).filter (fun t => t ≠ ['&']), if ['&'] ∈ tokens raw then 1 else bg) := by
  rw [split_args_eq_scan, scan_plain (tokens raw) [] bg h]
  simp

/-- C1 at the line `ls -l & /tmp`. -/
theorem C1_unquoted_line_witness :
    (∀ t ∈ tokens "ls -l & /tmp".toList, t.head? ≠ some '"' ∧ t.head? ≠ some '\'') ∧
    split_args "ls -l & /tmp".toList 0 =
      .ok (["ls".toList, "-l".toList, "/tmp".toList], 1) :=
  ⟨by decide, (C1_unquoted_line "ls -l & /tmp".toList 0 (by decide)).trans (by decide)⟩

set_option maxRecDepth 100000 in
/-- All seventy arguments are returned. -/
theorem split_args_seventy :
    split_args seventy 0 = .ok (List.replicate 70 ['x'], 0) := by
  decide

/-- The line `echo "hello world" foo` gives the arguments `echo`,
`hello world`, `foo` and leaves the flag as it was. -/
theorem split_args_hello_world (bg : Int) :
    split_args "echo \"hello world\" foo".toList bg =
      .ok (["echo".toList, "hello world".toList, "foo".toList], bg) := by
  rfl

/-- The line `sleep 5 &` gives the arguments `sleep`, `5` and the flag 1,
from any earlier flag value. -/
theorem split_args_sleep (bg : Int) :
    split_args "sleep 5 &".toList bg = .ok (["sleep".toList, "5".toList], 1) := by
  rfl

/-- C5: the opening token of a quoted argument is never tested for the
closing quote.  In `echo "hello" foo` the token `"hello"` opens an argument
that runs to the end of the line, and the result is `echo` and `hello" fo`
instead of `echo`, `hello`, `foo`. -/
theorem C5_self_closing_token_not_closed :
    split_args "echo \"hello\" foo".toList 0 =
      .ok (["echo".toList, "hello\" fo".toList], 0) := by
  decide

/-- The line `echo "abc def` gives the arguments `echo` and `abc de`. -/
theorem split_args_unterminated (bg : Int) :
    split_args "echo \"abc def".toList bg = .ok (["echo".toList, "abc de".toList], bg) := by
  rfl

/-! ## The line reader: claims -/

theorem get_raw_input_loop_line (rest : List Char) : ∀ (line cells : List Char) (bufsize : Nat),
    cells.length < bufsize → (∀ c ∈ line, c ≠ '\n' ∧ c ≠ '\x00') →
    ∃ bufsize1, get_raw_input_loop (line ++ '\n' :: rest) cells bufsize =
      .ok (⟨cells ++ line ++ ['\x00'], bufsize1⟩, rest) := by
  intro line
  induction line with
  | nil =>
    intro cells bufsize hlt _
    exact ⟨bufsize, by simp [get_raw_input_loop, hlt]⟩
  | cons c cs ih =>
    intro cells bufsize hlt h
    obtain ⟨hn, hz⟩ := h c (List.mem_cons_self _ _)
    have hlt1 : (cells ++ [c]).length <
        (if (cells ++ [c]).length ≥ bufsize then bufsize + BUFFER_SIZE else bufsize) := by
      simp only [List.length_append, List.length_singleton, BUFFER_SIZE]
      split <;> omega
    obtain ⟨b1, hb1⟩ := ih (cells ++ [c]) _ hlt1 (fun x hx => h x (List.mem_cons_of_mem _ hx))
    refine ⟨b1, ?_⟩
    simp only [List.cons_append, get_raw_input_loop, hz, hn, if_false, hlt, if_true,
      List.append_eq]
    rw [hb1]
    simp

theorem get_raw_input_loop_eof : ∀ (line cells : List Char) (bufsize : Nat),
    cells.length < bufsize → (∀ c ∈ line, c ≠ '\n' ∧ c ≠ '\x00') →
    ∃ bufsize1, get_raw_input_loop line cells bufsize =
      .ok (⟨cells ++ line ++ ['\x00'], bufsize1⟩, []) := by
  intro line
  induction line with
  | nil =>
    intro cells bufsize hlt _
    exact ⟨bufsize, by simp [get_raw_input_loop, hlt]⟩
  | cons c cs ih =>
    intro cells bufsize hlt h
    obtain ⟨hn, hz⟩ := h c (List.mem_cons_self _ _)
    have hlt1 : (cells ++ [c]).length <
        (if (cells ++ [c]).length ≥ bufsize then bufsize + BUFFER_SIZE else bufsize) := by
      simp only [List.length_append, List.length_singleton, BUFFER_SIZE]
      split <;> omega
    obtain ⟨b1, hb1⟩ := ih (cells ++ [c]) _ hlt1 (fun x hx => h x (List.mem_cons_of_mem _ hx))
    refine ⟨b1, ?_⟩
    simp only [get_raw_input_loop, hz, hn, if_false, hlt, if_true]
    rw [hb1]
    simp

theorem c_string_terminated (line : List Char) (bufsize : Nat) (h : ∀ c ∈ line, c ≠ '\x00') :
    c_string ⟨line ++ ['\x00'], bufsize⟩ = .ok line := by
  have h1 : (line ++ ['\x00']).takeWhile (fun c => c != '\x00') = line := by
    induction line with
    | nil => simp [List.takeWhile]
    | cons c cs ih =>
      have hc := h c (List.mem_cons_self _ _)
      have hc2 : (c != '\x00') = true := by simpa using hc
      rw [List.cons_append, List.takeWhile_cons, hc2, if_pos rfl,
        ih (fun x hx => h x (List.mem_cons_of_mem _ hx))]
  have h2 : (line ++ ['\x00']).contains '\x00' = true := by simp
  simp only [c_string, h2, if_true, h1]

/-- A line without NUL bytes that ends with a newline, of any length: the
block holds the line and a terminator, the newline is consumed and nothing
after it. -/
theorem get_raw_input_line (line rest : List Char) (h : ∀ c ∈ line, c ≠ '\n' ∧ c ≠ '\x00') :
    ∃ buffer, get_raw_input (line ++ '\n' :: rest) = .ok (buffer, rest) ∧
      c_string buffer = .ok line := by
  obtain ⟨b1, hb1⟩ := get_raw_input_loop_line rest line [] BUFFER_SIZE
    (by simp [BUFFER_SIZE]) h
  refine ⟨_, hb1, ?_⟩
  rw [List.nil_append]
  exact c_string_terminated line b1 (fun c hc => (h c hc).2)

/-- A last line without NUL bytes that ends with the end of input (the empty
line included). -/
theorem get_raw_input_eof (line : List Char) (h : ∀ c ∈ line, c ≠ '\n' ∧ c ≠ '\x00') :
    ∃ buffer, get_raw_input line = .ok (buffer, []) ∧ c_string buffer = .ok line := by
  obtain ⟨b1, hb1⟩ := get_raw_input_loop_eof line [] BUFFER_SIZE (by simp [BUFFER_SIZE]) h
  refine ⟨_, hb1, ?_⟩
  rw [List.nil_append]
  exact c_string_terminated line b1 (fun c hc => (h c hc).2)

/-- C9: a NUL byte before the newline ends the loop of `get_raw_input`
through the loop condition.  On the input `a`, NUL, `b`, newline the block
holds only `a`, no terminator was stored (reading it as a string runs into
cells never written), and `b` and the newline are left unread. -/
theorem C9_nul_byte_stops_reader :
    get_raw_input ['a', '\x00', 'b', '\n'] = .ok (⟨['a'], BUFFER_SIZE⟩, ['b', '\n']) ∧
    c_string ⟨['a'], BUFFER_SIZE⟩ = .error .uninitialised_read := by
  decide

/-! ## The main loop: claims -/

/-- On a line without an `&` token `split_args` leaves the flag as it was. -/
theorem split_args_flag_unchanged (raw : List Char) (bg b : Int) (args : List (List Char))
    (hno : ['&'] ∉ tokens raw) (h : split_args raw bg = .ok (args, b)) : b = bg := by
  rw [split_args_eq_scan] at h
  exact scan_flag_unchanged _ _ _ _ _ _ hno h

/-- C4: the flag is never reset.  Reading `sleep 5 &` and then
`echo "hello world" foo`, the loop calls `execute` twice with the flag 1: the
second command, whose line has no `&`, is run in the background as well. -/
theorem C4_flag_not_reset (bg0 : Int) :
    shell_loop 2 0 "sleep 5 &\necho \"hello world\" foo\n".toList bg0 (fun _ => shellPath) =
      .ok [(1, ["sleep".toList, "5".toList]),
           (1, ["echo".toList, "hello world".toList, "foo".toList])] := by
  rfl

/-! ## The dispatcher: claims -/

/-- C6: `execute` is the dispatch table.  The empty list runs nothing and
returns 1; an argument 0 equal to a builtin name runs that builtin, without a
`fork`, and returns 1, except `exit`, which ends the process with
`EXIT_SUCCESS`; every other argument 0 passes the whole list and the flag to
`program_command`. -/
theorem C6_execute_dispatch (runInBackground : Int) (os : OS) :
    execute runInBackground [] os = ⟨[], some 1⟩ ∧
    (∀ rest, execute runInBackground ("exit".toList :: rest) os =
      ⟨[(.shell, .exit EXIT_SUCCESS)], none⟩) ∧
    (∀ rest, execute runInBackground ("pid".toList :: rest) os =
      ⟨[(.shell, .print_pid)], some 1⟩) ∧
    (∀ rest, execute runInBackground ("ppid".toList :: rest) os =
      ⟨[(.shell, .print_ppid)], some 1⟩) ∧
    (∀ rest, execute runInBackground ("cd".toList :: rest) os =
      ⟨[(.shell, .change_directory ("cd".toList :: rest))], some 1⟩) ∧
    (∀ rest, execute runInBackground ("pwd".toList :: rest) os =
      ⟨[(.shell, .print_current_directory)], some 1⟩) ∧
    (∀ rest, execute runInBackground ("jobs".toList :: rest) os =
      ⟨[(.shell, .print_jobs)], some 1⟩) ∧
    (∀ arg0 rest, arg0 ∈ builtinNames →
      ∀ e ∈ (execute runInBackground (arg0 :: rest) os).trace, ∀ r, e.2 ≠ .fork r) ∧
    (∀ arg0 rest, arg0 ∉ builtinNames →
      execute runInBackground (arg0 :: rest) os =
        program_command (arg0 :: rest) runInBackground os) := by
  refine ⟨rfl, fun _ => rfl, fun _ => rfl, fun _ => rfl, fun _ => rfl, fun _ => rfl,
    fun _ => rfl, ?_, ?_⟩
  · intro arg0 rest h e he r
    simp only [builtinNames, List.mem_cons, List.mem_singleton, List.not_mem_nil,
      or_false] at h
    rcases h with h | h | h | h | h | h <;> subst h <;>
      simp [execute] at he <;> subst he <;> simp
  · intro arg0 rest h
    simp only [builtinNames, List.mem_cons, List.mem_singleton, List.not_mem_nil,
      or_false, not_or] at h
    obtain ⟨h1, h2, h3, h4, h5, h6⟩ := h
    have e1 : "exit".toList = ['e', 'x', 'i', 't'] := rfl
    have e2 : "pid".toList = ['p', 'i', 'd'] := rfl
    have e3 : "ppid".toList = ['p', 'p', 'i', 'd'] := rfl
    have e4 : "cd".toList = ['c', 'd'] := rfl
    have e5 : "pwd".toList = ['p', 'w', 'd'] := rfl
    have e6 : "jobs".toList = ['j', 'o', 'b', 's'] := rfl
    rw [e1] at h1; rw [e2] at h2; rw [e3] at h3; rw [e4] at h4; rw [e5] at h5; rw [e6] at h6
    simp only [execute, h1, h2, h3, h4, h5, h6, if_false]

/-- C6 at the names `Exit`, `pw` and `cdx`, which are no builtins. -/
theorem C6_execute_dispatch_witness :
    execute 0 ["Exit".toList] shellPath = program_command ["Exit".toList] 0 shellPath ∧
    execute 1 ["pw".toList] shellPath = program_command ["pw".toList] 1 shellPath ∧
    execute 0 ["cdx".toList, "/tmp".toList] shellPath =
      program_command ["cdx".toList, "/tmp".toList] 0 shellPath :=
  ⟨(C6_execute_dispatch 0 shellPath).2.2.2.2.2.2.2.2 _ _ (by decide),
   (C6_execute_dispatch 1 shellPath).2.2.2.2.2.2.2.2 _ _ (by decide),
   (C6_execute_dispatch 0 shellPath).2.2.2.2.2.2.2.2 _ _ (by decide)⟩

/-! ## The job controller: claims -/

theorem WTERMSIG_eq_mod (status : Nat) : WTERMSIG status = status % 128 := by
  have h : (0x7f : Nat) = 2 ^ 7 - 1 := by decide
  rw [WTERMSIG, h, Nat.and_pow_two_sub_one_eq_mod]

theorem WEXITSTATUS_eq_div_mod (status : Nat) : WEXITSTATUS status = status / 256 % 256 := by
  have h1 : (0xff00 : Nat) = (2 ^ 8 - 1) <<< 8 := by decide
  have h2 : status / 256 % 256 = (status >>> 8) % 2 ^ 8 := by
    rw [Nat.shiftRight_eq_div_pow]; norm_num
  rw [WEXITSTATUS, h1, h2]
  apply Nat.eq_of_testBit_eq
  intro i
  simp only [Nat.testBit_shiftRight, Nat.testBit_and, Nat.testBit_shiftLeft,
    Nat.testBit_mod_two_pow, Nat.testBit_two_pow_sub_one]
  have h3 : 8 + i - 8 = i := by omega
  have h4 : decide (8 + i ≥ 8) = true := by simp
  rw [h3, h4, Bool.true_and, Bool.and_comm]

theorem exitStatus_eq (status : Nat) :
    exitStatus status = if status % 128 = 0 then status / 256 % 256 else status % 128 := by
  simp only [exitStatus, WIFEXITED, WTERMSIG_eq_mod, WEXITSTATUS_eq_div_mod, beq_iff_eq]

/-- Every termination report of `program_command` carries `exitStatus` of the
wait status, the process id of the target and the command name. -/
theorem report_mem (args : List (List Char)) (bg : Int) (os : OS) (p : Proc) (pid : Int)
    (cmd : List Char) (code : Nat)
    (h : (p, Event.report pid cmd code) ∈ (program_command args bg os).trace) :
    code = exitStatus os.status ∧ pid = os.rc ∧ cmd = args.headD [] := by
  by_cases h1 : os.rc < 0
  · simp [program_command, h1] at h
  · by_cases h2 : os.rc = 0
    · by_cases h3 : os.exec_ok = true <;> simp [program_command, h2, h3] at h
    · by_cases hbg : bg = 0
      · simp [program_command, h1, h2, hbg] at h
        obtain ⟨_, e1, e2, e3⟩ := h
        exact ⟨e3, e1, by simpa using e2⟩
      · by_cases hg : os.guardian = 0
        · simp [program_command, h1, h2, hbg, hg] at h
          obtain ⟨_, e1, e2, e3⟩ := h
          exact ⟨e3, e1, by simpa using e2⟩
        · simp [program_command, h1, h2, hbg, hg] at h

/-- C7: the number printed in a termination report is bits 8-15 of the wait
status when its low 7 bits are zero, and the low 7 bits otherwise; so a
normal exit with code `c` reports `c` and a death by signal `s` (with or
without the core flag, bit 7) reports `s`. -/
theorem C7_reported_number (args : List (List Char)) (bg : Int) (os : OS) (p : Proc)
    (pid : Int) (cmd : List Char) (code : Nat)
    (h : (p, Event.report pid cmd code) ∈ (program_command args bg os).trace) :
    code = (if os.status % 128 = 0 then os.status / 256 % 256 else os.status % 128) ∧
    (∀ c, c < 256 → os.status = c * 256 → code = c) ∧
    (∀ s, 0 < s → s < 128 → os.status = s ∨ os.status = s + 128 → code = s) := by
  obtain ⟨hc, _, _⟩ := report_mem args bg os p pid cmd code h
  rw [exitStatus_eq] at hc
  refine ⟨hc, ?_, ?_⟩
  · intro c hlt hs
    rw [hc, hs]
    have h1 : c * 256 % 128 = 0 := by omega
    have h2 : c * 256 / 256 % 256 = c := by omega
    rw [if_pos h1, h2]
  · intro s h0 hlt hs
    rw [hc]
    rcases hs with hs | hs <;> rw [hs]
    · have h1 : ¬ (s % 128 = 0) := by omega
      rw [if_neg h1]; omega
    · have h1 : ¬ ((s + 128) % 128 = 0) := by omega
      rw [if_neg h1]; omega

/-- C7 for the command `false`, which exits with code 1 (wait status 256). -/
theorem C7_reported_number_witness :
    (Proc.shell, Event.report 100 "false".toList 1) ∈
      (program_command ["false".toList] 0 ⟨100, 0, true, 256⟩).trace ∧
    (1 : Nat) = (if 256 % 128 = 0 then 256 / 256 % 256 else 256 % 128) :=
  ⟨by decide,
   (C7_reported_number ["false".toList] 0 ⟨100, 0, true, 256⟩ .shell 100 "false".toList 1
      (by decide)).1⟩

/-- The four control paths of `program_command` after a successful first
`fork` in the parent. -/
theorem program_command_paths (args : List (List Char)) (bg : Int) (os : OS)
    (hjob : 0 < os.rc) :
    (bg = 0 → program_command args bg os =
      ⟨[(.shell, .fork os.rc), (.shell, .announce os.rc (args.headD [])),
        (.shell, .waitpid os.rc),
        (.shell, .report os.rc (args.headD []) (exitStatus os.status))], some 1⟩) ∧
    (bg ≠ 0 → os.guardian ≠ 0 → program_command args bg os =
      ⟨[(.shell, .fork os.rc), (.shell, .announce os.rc (args.headD [])),
        (.shell, .fork os.guardian)], some 1⟩) ∧
    (bg ≠ 0 → os.guardian = 0 → program_command args bg os =
      ⟨[(.shell, .fork os.rc), (.shell, .announce os.rc (args.headD [])),
        (.shell, .fork 0), (.guardian, .waitpid os.rc),
        (.guardian, .report os.rc (args.headD []) (exitStatus os.status)),
        (.guardian, .kill os.rc), (.guardian, .kill_self)], none⟩) := by
  have h1 : ¬ os.rc < 0 := by omega
  have h2 : ¬ os.rc = 0 := by omega
  refine ⟨?_, ?_, ?_⟩
  · intro hbg
    simp [program_command, h1, h2, hbg]
  · intro hbg hg
    simp [program_command, h1, h2, hbg, hg]
  · intro hbg hg
    simp [program_command, h1, h2, hbg, hg]

/-- C8: when the first `fork` gave a job (`0 < rc`), `program_command` runs
one of three control paths, and here they are in full.  Foreground: `fork`,
spawn announcement, `waitpid` on the target and termination report, both by
the shell, return 1.  Background, shell: `fork`, spawn announcement, guardian
`fork`, return 1 at once.  Background, guardian: the same three events, then
`waitpid` on the target and termination report, both by the guardian, then
the two signals, no return.  Hence, whatever the path: a `waitpid` is on the
target, the spawn announcement stands before it, and the termination report
of the same process stands directly after it; a termination report stands
directly after a `waitpid` of the same process, the shell for a foreground
job and the guardian for a background job; and for a background job the
shell performs no `waitpid` and no report. -/
theorem C8_event_order (args : List (List Char)) (bg : Int) (os : OS) (hjob : 0 < os.rc) :
    (bg = 0 → program_command args bg os =
      ⟨[(Proc.shell, Event.fork os.rc),
        (Proc.shell, Event.announce os.rc (args.headD [])),
        (Proc.shell, Event.waitpid os.rc),
        (Proc.shell, Event.report os.rc (args.headD []) (exitStatus os.status))],
       some 1⟩) ∧
    (bg ≠ 0 → os.guardian ≠ 0 → program_command args bg os =
      ⟨[(Proc.shell, Event.fork os.rc),
        (Proc.shell, Event.announce os.rc (args.headD [])),
        (Proc.shell, Event.fork os.guardian)],
       some 1⟩) ∧
    (bg ≠ 0 → os.guardian = 0 → program_command args bg os =
      ⟨[(Proc.shell, Event.fork os.rc),
        (Proc.shell, Event.announce os.rc (args.headD [])),
        (Proc.shell, Event.fork 0),
        (Proc.guardian, Event.waitpid os.rc),
        (Proc.guardian, Event.report os.rc (args.headD []) (exitStatus os.status)),
        (Proc.guardian, Event.kill os.rc),
        (Proc.guardian, Event.kill_self)],
       none⟩) ∧
    (∀ (i : Nat) (p : Proc) (pid : Int),
      (program_command args bg os).trace[i]? = some (p, Event.waitpid pid) →
      pid = os.rc ∧
      (∃ j, j < i ∧ (program_command args bg os).trace[j]? =
        some (Proc.shell, Event.announce os.rc (args.headD []))) ∧
      (program_command args bg os).trace[i + 1]? =
        some (p, Event.report os.rc (args.headD []) (exitStatus os.status))) ∧
    (∀ (i : Nat) (p : Proc) (pid : Int) (cmd : List Char) (code : Nat),
      (program_command args bg os).trace[i]? = some (p, Event.report pid cmd code) →
      p = (if bg = 0 then Proc.shell else Proc.guardian) ∧
      ∃ k, i = k + 1 ∧
        (program_command args bg os).trace[k]? = some (p, Event.waitpid os.rc)) ∧
    (bg ≠ 0 → ∀ e ∈ (program_command args bg os).trace, e.1 = Proc.shell →
      (∀ pid, e.2 ≠ Event.waitpid pid) ∧
      (∀ pid cmd code, e.2 ≠ Event.report pid cmd code)) := by
  obtain ⟨hfg, hsh, hgu⟩ := program_command_paths args bg os hjob
  refine ⟨hfg, hsh, hgu, ?_⟩
  by_cases hbg : bg = 0
  · rw [hfg hbg]
    refine ⟨?_, ?_, fun h => absurd hbg h⟩
    · intro i p pid h
      rcases i with _ | _ | _ | _ | i <;> simp at h
      obtain ⟨hp, hpid⟩ := h
      subst hp
      exact ⟨hpid.symm, ⟨1, by omega, rfl⟩, rfl⟩
    · intro i p pid cmd code h
      rcases i with _ | _ | _ | _ | i <;> simp at h
      obtain ⟨hp, _⟩ := h
      subst hp
      exact ⟨by simp [hbg], 2, rfl, rfl⟩
  · by_cases hg : os.guardian = 0
    · rw [hgu hbg hg]
      refine ⟨?_, ?_, fun _ => ?_⟩
      · intro i p pid h
        rcases i with _ | _ | _ | _ | _ | _ | _ | i <;> simp at h
        obtain ⟨hp, hpid⟩ := h
        subst hp
        exact ⟨hpid.symm, ⟨1, by omega, rfl⟩, rfl⟩
      · intro i p pid cmd code h
        rcases i with _ | _ | _ | _ | _ | _ | _ | i <;> simp at h
        obtain ⟨hp, _⟩ := h
        subst hp
        exact ⟨by simp [hbg], 3, rfl, rfl⟩
      · intro e he hs
        simp only [List.mem_cons, List.mem_singleton, List.not_mem_nil, or_false] at he
        rcases he with he | he | he | he | he | he | he <;> subst he <;> simp at hs ⊢
    · rw [hsh hbg hg]
      refine ⟨?_, ?_, fun _ => ?_⟩
      · intro i p pid h
        rcases i with _ | _ | _ | i <;> simp at h
      · intro i p pid cmd code h
        rcases i with _ | _ | _ | i <;> simp at h
      · intro e he hs
        simp only [List.mem_cons, List.mem_singleton, List.not_mem_nil, or_false] at he
        rcases he with he | he | he <;> subst he <;> simp

/-- C8 for a foreground job and for the two paths of a background job of the
command `ls`. -/
theorem C8_event_order_witness :
    program_command ["ls".toList] 0 ⟨100, 0, true, 256⟩ =
      ⟨[(Proc.shell, Event.fork 100), (Proc.shell, Event.announce 100 "ls".toList),
        (Proc.shell, Event.waitpid 100), (Proc.shell, Event.report 100 "ls".toList 1)],
       some 1⟩ ∧
    program_command ["ls".toList] 1 ⟨100, 101, true, 0⟩ =
      ⟨[(Proc.shell, Event.fork 100), (Proc.shell, Event.announce 100 "ls".toList),
        (Proc.shell, Event.fork 101)],
       some 1⟩ ∧
    program_command ["ls".toList] 1 ⟨100, 0, true, 0⟩ =
      ⟨[(Proc.shell, Event.fork 100), (Proc.shell, Event.announce 100 "ls".toList),
        (Proc.shell, Event.fork 0), (Proc.guardian, Event.waitpid 100),
        (Proc.guardian, Event.report 100 "ls".toList 0),
        (Proc.guardian, Event.kill 100), (Proc.guardian, Event.kill_self)],
       none⟩ :=
  ⟨(C8_event_order ["ls".toList] 0 ⟨100, 0, true, 256⟩ (by decide)).1 rfl,
   (C8_event_order ["ls".toList] 1 ⟨100, 101, true, 0⟩ (by decide)).2.1
      (by decide) (by decide),
   (C8_event_order ["ls".toList] 1 ⟨100, 0, true, 0⟩ (by decide)).2.2.1
      (by decide) rfl⟩

end Shell
